import Mathlib

/-!
Verification of the consumer-side offset-management engine
(`kafka/consumer/new.py`, class `KafkaConsumer`).

The embedding models the consumer's pure state transitions directly from the
source.  Network collaborators (the `KafkaClient` transport) are passed in as
explicit response data, and Python dicts are modelled as insertion-ordered
association lists (`OffsetMap`).  Python runtime failures (`KeyError` on a
missing dict key, `TypeError` on `None` arithmetic) are modelled explicitly,
since the source can hit them.
-/

set_option autoImplicit false

/-- A topic-partition pair, the dict key used throughout the source
(`(message.topic, message.partition)` tuples). -/
abbrev TP := String × Int

/-- A Python dict from topic-partition to an optional integer offset, as used
for the four cursor dicts of `OffsetsStruct` in the source.  Insertion order
is kept, the first binding wins on lookup, and `setk` never duplicates keys. -/
abbrev OffsetMap := List (TP × Option Int)

/-- Dict lookup: `some v` when the key is present (`v` is the stored value,
itself `Option Int` because the source stores both ints and `None`), `none`
when the key is absent (a Python `KeyError` if subscripted). -/
def OffsetMap.getk : OffsetMap → TP → Option (Option Int)
  | [], _ => none
  | (k, v) :: rest, tp => if k = tp then some v else OffsetMap.getk rest tp

/-- Dict assignment `d[tp] = v`: replace in place when the key is present,
append when absent (Python dict insertion-order semantics). -/
def OffsetMap.setk : OffsetMap → TP → Option Int → OffsetMap
  | [], tp, v => [(tp, v)]
  | (k, u) :: rest, tp, v =>
    if k = tp then (tp, v) :: rest
    else (k, u) :: OffsetMap.setk rest tp v

/-- A dict is well-formed when no key occurs twice; every real Python dict is. -/
def OffsetMap.wf (m : OffsetMap) : Prop := (m.map Prod.fst).Nodup

theorem OffsetMap.getk_setk_same {m : OffsetMap} {tp : TP} {v : Option Int} :
    (m.setk tp v).getk tp = some v := by
  induction m with
  | nil => simp [OffsetMap.setk, OffsetMap.getk]
  | cons hd tl ih =>
    obtain ⟨k, u⟩ := hd
    by_cases hk : k = tp
    · simp [OffsetMap.setk, OffsetMap.getk, hk]
    · simp [OffsetMap.setk, OffsetMap.getk, hk, ih]

theorem OffsetMap.getk_setk_ne {m : OffsetMap} {tp tq : TP} {v : Option Int}
    (hne : tq ≠ tp) : (m.setk tp v).getk tq = m.getk tq := by
  have hne' : tp ≠ tq := Ne.symm hne
  induction m with
  | nil => simp [OffsetMap.setk, OffsetMap.getk, hne']
  | cons hd tl ih =>
    obtain ⟨k, u⟩ := hd
    by_cases hk : k = tp
    · subst hk
      simp [OffsetMap.setk, OffsetMap.getk, hne']
    · by_cases hq : k = tq
      · simp [OffsetMap.setk, OffsetMap.getk, hne, hk, hq]
      · simp [OffsetMap.setk, OffsetMap.getk, hk, hq, ih]

theorem OffsetMap.setk_setk_same {m : OffsetMap} {tp : TP} {v w : Option Int} :
    (m.setk tp v).setk tp w = m.setk tp w := by
  induction m with
  | nil => simp [OffsetMap.setk]
  | cons hd tl ih =>
    obtain ⟨k, u⟩ := hd
    by_cases hk : k = tp
    · simp [OffsetMap.setk, hk]
    · simp [OffsetMap.setk, hk, ih]

theorem OffsetMap.mem_of_getk {m : OffsetMap} {tp : TP} {v : Option Int} :
    m.getk tp = some v → (tp, v) ∈ m := by
  induction m with
  | nil => intro h; cases h
  | cons hd tl ih =>
    obtain ⟨k, u⟩ := hd
    intro h
    by_cases hk : k = tp
    · simp only [OffsetMap.getk, hk, if_true, Option.some.injEq] at h
      subst hk; subst h
      exact List.mem_cons_self _ _
    · simp only [OffsetMap.getk, hk, if_false] at h
      exact List.mem_cons_of_mem _ (ih h)

theorem OffsetMap.getk_of_mem_wf {m : OffsetMap} {tp : TP} {v : Option Int} :
    m.wf → (tp, v) ∈ m → m.getk tp = some v := by
  induction m with
  | nil => intro _ h; cases h
  | cons hd tl ih =>
    intro hwf hmem
    have hwf' : OffsetMap.wf tl := (List.nodup_cons.mp hwf).2
    rcases List.mem_cons.mp hmem with heq | hmem'
    · rw [← heq]
      simp [OffsetMap.getk]
    · have hne : hd.1 ≠ tp := by
        intro hc
        have : hd.1 ∈ tl.map Prod.fst := by
          refine List.mem_map.mpr ⟨(tp, v), hmem', ?_⟩
          exact hc.symm
        exact (List.nodup_cons.mp hwf).1 this
      simp only [OffsetMap.getk, hne, if_false]
      exact ih hwf' hmem'

/-- Modelled from the spec: kafka.common's error taxonomy (the module is not
under src/).  A per-partition response carries one of these error kinds
(§7 of the spec); `noError` is error code 0. -/
inductive RespError where
  | noError
  | offsetOutOfRange
  | unknownTopicOrPartition
  | notLeaderForPartition
  | requestTimedOut
  | other (code : Int)
deriving DecidableEq

/-- Exceptions the consumer code can raise.  The constructors mirror the
exception classes imported from kafka.common plus the Python runtime errors
(`typeError`, `keyError`, `valueError`, `assertionError`) that the source can
trigger. -/
inductive KError where
  | configError (msg : String)
  | unknownTopicOrPartition (msg : String)
  | offsetOutOfRange (msg : String)
  | notLeaderForPartition
  | requestTimedOut
  | brokerError (code : Int)
  | deserializationError
  | consumerTimeout
  | typeError
  | keyError
  | valueError
  | assertionError
deriving DecidableEq

/-- Modelled from the spec: kafka.common.check_error (not under src/) raises
the exception corresponding to a response's nonzero error code and does
nothing for code 0. -/
def check_error : RespError → Option KError
  | .noError => none
  | .offsetOutOfRange => some (.offsetOutOfRange "response")
  | .unknownTopicOrPartition => some (.unknownTopicOrPartition "response")
  | .notLeaderForPartition => some .notLeaderForPartition
  | .requestTimedOut => some .requestTimedOut
  | .other c => some (.brokerError c)

/-- OffsetsStruct from the source: the four per-partition cursor dicts. -/
structure OffsetsStruct where
  fetch : OffsetMap
  highwater : OffsetMap
  commit : OffsetMap
  task_done : OffsetMap
deriving DecidableEq

/-- The consumer configuration (DEFAULT_CONSUMER_CONFIG keys that the modelled
code paths read).  `deserializer_class` returns `none` when the user-supplied
deserializer raises.  Fields not read by any modelled path (client_id, socket
timeout, the unused keys) are omitted. -/
structure Config where
  group_id : Option String
  auto_offset_reset : String
  fetch_message_max_bytes : Int
  fetch_min_bytes : Int
  fetch_wait_max_ms : Int
  refresh_leader_backoff_ms : Int
  deserializer_class : Int → Option Int
  auto_commit_enable : Bool
  auto_commit_interval_ms : Int
  consumer_timeout_ms : Int

/-- Python truthiness of `self._config['group_id']`: `None` and the empty
string are both falsy. -/
def groupUnset : Option String → Bool
  | none => true
  | some s => s.isEmpty

/-- OffsetCommitRequest payload built by commit(). -/
structure OffsetCommitRequest where
  topic : String
  partition : Int
  offset : Int
  metadata : String
deriving DecidableEq

/-- A per-partition response to an offset-commit request. -/
structure OffsetCommitResponse where
  topic : String
  partition : Int
  error : RespError
deriving DecidableEq

/-- The commit-candidate loop of commit() (new.py lines 251-269): for every
entry of the task_done dict with a non-None offset, candidate commit offset is
`task_done + 1`; entries whose candidate equals the recorded commit cursor are
skipped.  Subscripting `self._offsets.commit[topic_partition]` on a missing
key is a Python KeyError. -/
def buildCommits (commit : OffsetMap) : List (TP × Option Int) → Except KError (List OffsetCommitRequest)
  | [] => .ok []
  | (tp, taskDoneOffset) :: rest =>
    match taskDoneOffset with
    | none => buildCommits commit rest
    | some td =>
      match commit.getk tp with
      | none => .error .keyError
      | some cur =>
        if some (td + 1) = cur then buildCommits commit rest
        else
          match buildCommits commit rest with
          | .error e => .error e
          | .ok reqs => .ok (⟨tp.1, tp.2, td + 1, ""⟩ :: reqs)

/-- The acknowledgment loop of commit() (new.py lines 277-281): responses are
processed in order; `check_error` raises on a response error (mutations made
so far persist); otherwise the commit cursor is set to the task_done cursor
re-read at acknowledgment time, plus one.  `task_done + 1` on a `None`
task_done would be a Python TypeError. -/
def processCommitResps (taskDone : OffsetMap) :
    OffsetMap → List OffsetCommitResponse → OffsetMap × Option KError
  | commit, [] => (commit, none)
  | commit, r :: rest =>
    match check_error r.error with
    | some e => (commit, some e)
    | none =>
      match taskDone.getk (r.topic, r.partition) with
      | none => (commit, some .keyError)
      | some none => (commit, some .typeError)
      | some (some td) =>
        processCommitResps taskDone (commit.setk (r.topic, r.partition) (some (td + 1))) rest

/-- Result of one commit() call: final offsets (mutations persist even when an
exception propagates), the auto-commit deadline after the call, the requests
actually sent over the network (empty means no network call), and the returned
value or propagated exception. -/
structure CommitOutcome where
  offsets : OffsetsStruct
  nextCommit : Option Int
  sent : List OffsetCommitRequest
  result : Except KError Bool

/-- commit() (new.py lines 235-290).  `now` is the wall clock read by
`_set_next_auto_commit_time` (milliseconds); `nextCommit` is `self._next_commit`;
`resps` is what the transport returns for the submitted batch. -/
def KafkaConsumer.commit (cfg : Config) (now : Int) (nextCommit : Option Int)
    (off : OffsetsStruct) (resps : List OffsetCommitResponse) : CommitOutcome :=
  if groupUnset cfg.group_id then
    ⟨off, nextCommit, [], .error (.configError
      "Attempted to commit offsets without a configured consumer group (group_id)")⟩
  else
    match buildCommits off.commit off.task_done with
    | .error e => ⟨off, nextCommit, [], .error e⟩
    | .ok [] => ⟨off, nextCommit, [], .ok false⟩
    | .ok (c :: cs) =>
      match processCommitResps off.task_done off.commit resps with
      | (commitMap, some e) =>
        ⟨{ off with commit := commitMap }, nextCommit, c :: cs, .error e⟩
      | (commitMap, none) =>
        ⟨{ off with commit := commitMap },
         (if cfg.auto_commit_enable then some (now + cfg.auto_commit_interval_ms) else nextCommit),
         c :: cs, .ok true⟩

theorem processCommitResps_getk_notmem (taskDone : OffsetMap) :
    ∀ (resps : List OffsetCommitResponse) (commit : OffsetMap) (tp : TP),
    tp ∉ resps.map (fun r => ((r.topic, r.partition) : TP)) →
    (processCommitResps taskDone commit resps).1.getk tp = commit.getk tp := by
  intro resps
  induction resps with
  | nil => intro commit tp _; rfl
  | cons r rest ih =>
    intro commit tp hnm
    have hne : tp ≠ ((r.topic, r.partition) : TP) := by
      intro hc
      exact hnm (by simp [hc])
    have hnm' : tp ∉ rest.map (fun r => ((r.topic, r.partition) : TP)) := by
      intro hc
      exact hnm (by simp [hc])
    unfold processCommitResps
    match hce : check_error r.error with
    | some e => rfl
    | none =>
      match htd : taskDone.getk (r.topic, r.partition) with
      | none => rfl
      | some none => rfl
      | some (some td) =>
        rw [ih _ tp hnm', OffsetMap.getk_setk_ne hne]

theorem processCommitResps_no_error (taskDone : OffsetMap) :
    ∀ (resps : List OffsetCommitResponse) (commit : OffsetMap),
    (∀ r ∈ resps, r.error = .noError) →
    (∀ r ∈ resps, ∃ td, taskDone.getk (r.topic, r.partition) = some (some td)) →
    (processCommitResps taskDone commit resps).2 = none := by
  intro resps
  induction resps with
  | nil => intro commit _ _; rfl
  | cons r rest ih =>
    intro commit hok hdef
    obtain ⟨td, htd⟩ := hdef r (List.mem_cons_self r rest)
    have hr : r.error = .noError := hok r (List.mem_cons_self r rest)
    unfold processCommitResps
    rw [hr]
    simp only [check_error, htd]
    exact ih _ (fun x hx => hok x (List.mem_cons_of_mem r hx))
      (fun x hx => hdef x (List.mem_cons_of_mem r hx))

theorem processCommitResps_getk_acked (taskDone : OffsetMap) :
    ∀ (resps : List OffsetCommitResponse) (commit : OffsetMap),
    (∀ r ∈ resps, r.error = .noError) →
    (∀ r ∈ resps, ∃ td, taskDone.getk (r.topic, r.partition) = some (some td)) →
    ∀ tp td, taskDone.getk tp = some (some td) →
    tp ∈ resps.map (fun r => ((r.topic, r.partition) : TP)) →
    (processCommitResps taskDone commit resps).1.getk tp = some (some (td + 1)) := by
  intro resps
  induction resps with
  | nil => intro commit _ _ tp td _ hmem; cases hmem
  | cons r rest ih =>
    intro commit hok hdef tp td htp hmem
    obtain ⟨td0, htd0⟩ := hdef r (List.mem_cons_self r rest)
    have hr : r.error = .noError := hok r (List.mem_cons_self r rest)
    unfold processCommitResps
    rw [hr]
    simp only [check_error, htd0]
    by_cases hrest : tp ∈ rest.map (fun r => ((r.topic, r.partition) : TP))
    · exact ih _ (fun x hx => hok x (List.mem_cons_of_mem r hx))
        (fun x hx => hdef x (List.mem_cons_of_mem r hx)) tp td htp hrest
    · have htp0 : tp = ((r.topic, r.partition) : TP) := by
        rcases List.mem_map.mp hmem with ⟨x, hx, hxe⟩
        rcases List.mem_cons.mp hx with rfl | hx'
        · exact hxe.symm
        · exact absurd (List.mem_map.mpr ⟨x, hx', hxe⟩) hrest
      have htd' : td0 = td := by
        rw [htp0] at htp
        rw [htp] at htd0
        exact (Option.some.injEq _ _ ▸ htd0 : some td = some td0) |>.symm
          |> fun h => by injection h
      subst htd'
      rw [processCommitResps_getk_notmem taskDone rest _ tp hrest, htp0,
        OffsetMap.getk_setk_same]

theorem processCommitResps_append (taskDone : OffsetMap) :
    ∀ (good : List OffsetCommitResponse) (l : List OffsetCommitResponse) (commit : OffsetMap),
    (∀ r ∈ good, r.error = .noError) →
    (∀ r ∈ good, ∃ td, taskDone.getk (r.topic, r.partition) = some (some td)) →
    processCommitResps taskDone commit (good ++ l) =
      processCommitResps taskDone (processCommitResps taskDone commit good).1 l := by
  intro good
  induction good with
  | nil => intro l commit _ _; rfl
  | cons r rest ih =>
    intro l commit hok hdef
    obtain ⟨td, htd⟩ := hdef r (List.mem_cons_self r rest)
    have hr : r.error = .noError := hok r (List.mem_cons_self r rest)
    have step : ∀ m : OffsetMap, ∀ rs, processCommitResps taskDone m (r :: rs) =
        processCommitResps taskDone (m.setk (r.topic, r.partition) (some (td + 1))) rs := by
      intro m rs
      conv_lhs => rw [processCommitResps]
      rw [hr]
      simp only [check_error, htd]
    rw [List.cons_append, step, step,
      ih l _ (fun x hx => hok x (List.mem_cons_of_mem r hx))
        (fun x hx => hdef x (List.mem_cons_of_mem r hx))]

theorem buildCommits_mem_spec :
    ∀ (l : List (TP × Option Int)) (commit : OffsetMap) (reqs : List OffsetCommitRequest),
    buildCommits commit l = .ok reqs →
    ∀ req ∈ reqs, ∃ tp td, (tp, some td) ∈ l ∧
      req = ⟨tp.1, tp.2, td + 1, ""⟩ ∧ commit.getk tp ≠ some (some (td + 1)) := by
  intro l
  induction l with
  | nil =>
    intro commit reqs h req hreq
    simp only [buildCommits] at h
    cases h
    cases hreq
  | cons hd rest ih =>
    obtain ⟨tp0, v⟩ := hd
    intro commit reqs h req hreq
    match v with
    | none =>
      simp only [buildCommits] at h
      obtain ⟨tp, td, hmem, he, hne⟩ := ih commit reqs h req hreq
      exact ⟨tp, td, List.mem_cons_of_mem _ hmem, he, hne⟩
    | some td0 =>
      simp only [buildCommits] at h
      split at h
      · cases h
      · rename_i cur hcur
        split at h
        · rename_i heq
          obtain ⟨tp, td, hmem, he, hne⟩ := ih commit reqs h req hreq
          exact ⟨tp, td, List.mem_cons_of_mem _ hmem, he, hne⟩
        · rename_i heq
          split at h
          · cases h
          · rename_i reqs' hrest
            cases h
            rcases List.mem_cons.mp hreq with rfl | hreq'
            · refine ⟨tp0, td0, List.mem_cons_self _ _, rfl, ?_⟩
              rw [hcur]
              intro hc
              injection hc with hc'
              exact heq hc'.symm
            · obtain ⟨tp, td, hmem, he, hne⟩ := ih commit reqs' hrest req hreq'
              exact ⟨tp, td, List.mem_cons_of_mem _ hmem, he, hne⟩

theorem buildCommits_all_none :
    ∀ (l : List (TP × Option Int)) (commit : OffsetMap),
    (∀ p ∈ l, p.2 = (none : Option Int)) → buildCommits commit l = .ok [] := by
  intro l
  induction l with
  | nil => intro commit _; rfl
  | cons hd rest ih =>
    intro commit hall
    have hhd : hd.2 = none := hall hd (List.mem_cons_self _ _)
    obtain ⟨tp0, v⟩ := hd
    cases v with
    | none =>
      simp only [buildCommits]
      exact ih commit (fun p hp => hall p (List.mem_cons_of_mem _ hp))
    | some td0 => cases hhd

theorem check_error_of_ne_noError (er : RespError) (h : er ≠ .noError) :
    ∃ e, check_error er = some e := by
  cases er
  case noError => exact absurd rfl h
  all_goals exact ⟨_, rfl⟩

/-- C2: for every partition acknowledged in a successful commit() round trip,
the commit cursor becomes the task_done cursor as read at acknowledgment time
plus one (the ack loop re-reads `self._offsets.task_done[topic_partition]`
and never consults the candidate offsets placed in the request, which indeed
are not even an input of `processCommitResps`), and commit() returns True. -/
theorem commit_ack_rereads_task_done
    (cfg : Config) (now : Int) (nextCommit : Option Int) (off : OffsetsStruct)
    (resps : List OffsetCommitResponse)
    (hgroup : groupUnset cfg.group_id = false)
    (c : OffsetCommitRequest) (cs : List OffsetCommitRequest)
    (hbuild : buildCommits off.commit off.task_done = .ok (c :: cs))
    (hok : ∀ r ∈ resps, r.error = .noError)
    (hdef : ∀ r ∈ resps, ∃ td, off.task_done.getk (r.topic, r.partition) = some (some td)) :
    (KafkaConsumer.commit cfg now nextCommit off resps).result = .ok true ∧
    ∀ r ∈ resps, ∀ td, off.task_done.getk (r.topic, r.partition) = some (some td) →
      (KafkaConsumer.commit cfg now nextCommit off resps).offsets.commit.getk
        (r.topic, r.partition) = some (some (td + 1)) := by
  rcases hpp : processCommitResps off.task_done off.commit resps with ⟨cm, err⟩
  have herr : err = none := by
    have h := processCommitResps_no_error off.task_done resps off.commit hok hdef
    rw [hpp] at h
    exact h
  subst herr
  have hco : KafkaConsumer.commit cfg now nextCommit off resps =
      ⟨{ off with commit := cm },
       (if cfg.auto_commit_enable then some (now + cfg.auto_commit_interval_ms) else nextCommit),
       c :: cs, .ok true⟩ := by
    unfold KafkaConsumer.commit
    rw [hgroup, hbuild, hpp]
    rfl
  constructor
  · rw [hco]
  · intro r hr td htd
    rw [hco]
    show cm.getk (r.topic, r.partition) = some (some (td + 1))
    have := processCommitResps_getk_acked off.task_done resps off.commit hok hdef
      (r.topic, r.partition) td htd
      (List.mem_map.mpr ⟨r, hr, rfl⟩)
    rw [hpp] at this
    exact this

def cfgG : Config :=
  ⟨some "g1", "largest", 1048576, 1, 100, 200, fun v => some v, false, 60000, -1⟩

def offW : OffsetsStruct :=
  ⟨[(("t", 0), some 40)], [], [(("t", 0), some 45), (("t", 1), some 51)],
   [(("t", 0), some 50), (("t", 1), some 50)]⟩

theorem commit_ack_rereads_task_done_witness :
    (KafkaConsumer.commit cfgG 0 none offW [⟨"t", 0, .noError⟩]).result = .ok true ∧
    (KafkaConsumer.commit cfgG 0 none offW [⟨"t", 0, .noError⟩]).offsets.commit.getk ("t", 0) =
      some (some 51) := by
  have h := commit_ack_rereads_task_done cfgG 0 none offW [⟨"t", 0, .noError⟩] rfl
    ⟨"t", 0, 51, ""⟩ [] rfl
    (by intro r hr; simp only [List.mem_singleton] at hr; subst hr; rfl)
    (by intro r hr; simp only [List.mem_singleton] at hr; subst hr; exact ⟨50, rfl⟩)
  exact ⟨h.1, h.2 ⟨"t", 0, .noError⟩ (List.mem_cons_self _ _) 50 rfl⟩

/-- C3: the candidate list of commit() contains only partitions with a
non-None task_done cursor, at offset `task_done + 1`, and never a partition
whose candidate equals the recorded commit cursor; when the candidate list is
empty (in particular when every task_done is None), commit() returns False
with nothing sent over the network. -/
theorem commit_candidate_list_and_empty_noop
    (cfg : Config) (now : Int) (nextCommit : Option Int) (off : OffsetsStruct)
    (resps : List OffsetCommitResponse)
    (hgroup : groupUnset cfg.group_id = false) :
    (∀ reqs, OffsetMap.wf off.task_done →
      buildCommits off.commit off.task_done = .ok reqs →
      ∀ req ∈ reqs, ∃ td,
        off.task_done.getk (req.topic, req.partition) = some (some td) ∧
        req.offset = td + 1 ∧
        off.commit.getk (req.topic, req.partition) ≠ some (some (td + 1))) ∧
    (buildCommits off.commit off.task_done = .ok [] →
      KafkaConsumer.commit cfg now nextCommit off resps =
        ⟨off, nextCommit, [], .ok false⟩) ∧
    ((∀ p ∈ off.task_done, p.2 = (none : Option Int)) →
      KafkaConsumer.commit cfg now nextCommit off resps =
        ⟨off, nextCommit, [], .ok false⟩) := by
  have hempty : buildCommits off.commit off.task_done = .ok [] →
      KafkaConsumer.commit cfg now nextCommit off resps =
        ⟨off, nextCommit, [], .ok false⟩ := by
    intro hb
    unfold KafkaConsumer.commit
    rw [hgroup, hb]
    rfl
  refine ⟨?_, hempty, fun hall => hempty (buildCommits_all_none _ _ hall)⟩
  intro reqs hwf hb req hreq
  obtain ⟨tp, td, hmem, he, hne⟩ := buildCommits_mem_spec off.task_done off.commit reqs hb req hreq
  have htp : ((req.topic, req.partition) : TP) = tp := by
    rw [he]
  refine ⟨td, ?_, by rw [he], ?_⟩
  · rw [htp]
    exact OffsetMap.getk_of_mem_wf hwf hmem
  · rw [htp]
    exact hne

def offN : OffsetsStruct :=
  ⟨[], [], [(("t", 1), some 51)], [(("t", 1), some 50)]⟩

theorem commit_candidate_list_and_empty_noop_witness :
    (KafkaConsumer.commit cfgG 0 none offN []).result = .ok false ∧
    (KafkaConsumer.commit cfgG 0 none offN []).sent = [] ∧
    (∃ td, offW.task_done.getk ("t", 0) = some (some td) ∧
      (51 : Int) = td + 1 ∧
      offW.commit.getk ("t", 0) ≠ some (some (td + 1))) := by
  have h1 := (commit_candidate_list_and_empty_noop cfgG 0 none offN [] rfl).2.1 rfl
  have h2 := (commit_candidate_list_and_empty_noop cfgG 0 none offW [] rfl).1
    [⟨"t", 0, 51, ""⟩] (by unfold OffsetMap.wf; decide) rfl
    ⟨"t", 0, 51, ""⟩ (List.mem_cons_self _ _)
  exact ⟨by rw [h1], by rw [h1], h2⟩

/-- C10: commit() is not atomic across per-partition acknowledgment errors.
Responses are processed in order; when one carries an error, the
corresponding exception propagates to the caller, the commit cursors already
updated for earlier responses in the same batch keep their new values, and
the auto-commit deadline is left unchanged. -/
theorem commit_partial_failure_not_atomic
    (cfg : Config) (now : Int) (nextCommit : Option Int) (off : OffsetsStruct)
    (good rest : List OffsetCommitResponse) (bad : OffsetCommitResponse)
    (c : OffsetCommitRequest) (cs : List OffsetCommitRequest)
    (hgroup : groupUnset cfg.group_id = false)
    (hbuild : buildCommits off.commit off.task_done = .ok (c :: cs))
    (hok : ∀ r ∈ good, r.error = .noError)
    (hdef : ∀ r ∈ good, ∃ td, off.task_done.getk (r.topic, r.partition) = some (some td))
    (hbad : bad.error ≠ .noError) :
    (∃ e, check_error bad.error = some e ∧
      (KafkaConsumer.commit cfg now nextCommit off (good ++ bad :: rest)).result = .error e) ∧
    (KafkaConsumer.commit cfg now nextCommit off (good ++ bad :: rest)).nextCommit = nextCommit ∧
    ∀ r ∈ good, ∀ td, off.task_done.getk (r.topic, r.partition) = some (some td) →
      (KafkaConsumer.commit cfg now nextCommit off (good ++ bad :: rest)).offsets.commit.getk
        (r.topic, r.partition) = some (some (td + 1)) := by
  obtain ⟨e, he⟩ := check_error_of_ne_noError bad.error hbad
  rcases hgg : processCommitResps off.task_done off.commit good with ⟨cm, err⟩
  have hfull : processCommitResps off.task_done off.commit (good ++ bad :: rest) =
      (cm, some e) := by
    rw [processCommitResps_append off.task_done good (bad :: rest) off.commit hok hdef, hgg]
    conv_lhs => rw [processCommitResps]
    rw [he]
  have hco : KafkaConsumer.commit cfg now nextCommit off (good ++ bad :: rest) =
      ⟨{ off with commit := cm }, nextCommit, c :: cs, .error e⟩ := by
    unfold KafkaConsumer.commit
    rw [hgroup, hbuild, hfull]
    rfl
  refine ⟨⟨e, he, by rw [hco]⟩, by rw [hco], ?_⟩
  intro r hr td htd
  rw [hco]
  show cm.getk (r.topic, r.partition) = some (some (td + 1))
  have := processCommitResps_getk_acked off.task_done good off.commit hok hdef
    (r.topic, r.partition) td htd (List.mem_map.mpr ⟨r, hr, rfl⟩)
  rw [hgg] at this
  exact this

def off10 : OffsetsStruct :=
  ⟨[], [], [(("t", 0), some 45), (("u", 0), some 1)],
   [(("t", 0), some 50), (("u", 0), some 9)]⟩

theorem commit_partial_failure_not_atomic_witness :
    (KafkaConsumer.commit cfgG 0 (some 777) off10
        [⟨"t", 0, .noError⟩, ⟨"u", 0, .requestTimedOut⟩]).result = .error .requestTimedOut ∧
    (KafkaConsumer.commit cfgG 0 (some 777) off10
        [⟨"t", 0, .noError⟩, ⟨"u", 0, .requestTimedOut⟩]).nextCommit = some 777 ∧
    (KafkaConsumer.commit cfgG 0 (some 777) off10
        [⟨"t", 0, .noError⟩, ⟨"u", 0, .requestTimedOut⟩]).offsets.commit.getk ("t", 0) =
      some (some 51) := by
  have h := commit_partial_failure_not_atomic cfgG 0 (some 777) off10
    [⟨"t", 0, .noError⟩] [] ⟨"u", 0, .requestTimedOut⟩ ⟨"t", 0, 51, ""⟩ [⟨"u", 0, 10, ""⟩]
    rfl rfl
    (by intro r hr; simp only [List.mem_singleton] at hr; subst hr; rfl)
    (by intro r hr; simp only [List.mem_singleton] at hr; subst hr; exact ⟨50, rfl⟩)
    (by decide)
  obtain ⟨⟨e, he, hres⟩, hnc, hcm⟩ := h
  have he' : e = .requestTimedOut := by
    have : check_error RespError.requestTimedOut = some e := he
    injection this with h2
    exact h2.symm
  subst he'
  exact ⟨hres, hnc, hcm ⟨"t", 0, .noError⟩ (List.mem_cons_self _ _) 50 rfl⟩

/-- KafkaMessage namedtuple: topic, partition, offset, key, value
(value is the deserializer output). -/
structure KafkaMessage where
  topic : String
  partition : Int
  offset : Int
  key : Option Int
  value : Int
deriving DecidableEq

/-- Warnings logged by task_done (logger.warning calls, not exceptions). -/
inductive TaskDoneWarning where
  | nonContinuous (offset prev : Int)
  | previouslyCommitted (offset prev : Int)
deriving DecidableEq

/-- task_done(message) (new.py lines 198-221), translated line by line.
The first check compares against the previous task_done cursor (warning only).
The second check computes `prev_done = self._offsets.commit[topic_partition] - 1`
BEFORE testing `prev_done is not None`; a `None` commit cursor therefore hits a
Python TypeError (`None - 1`) and the call raises instead of warning.  When the
commit cursor is an int, `prev_done` is an int, so the `is not None` test is
always true and the comparison `offset <= prev_done` decides the warning. -/
def task_done (off : OffsetsStruct) (message : KafkaMessage) :
    Except KError (OffsetsStruct × List TaskDoneWarning) :=
  let topic_partition : TP := (message.topic, message.partition)
  let offset := message.offset
  match off.task_done.getk topic_partition with
  | none => .error .keyError
  | some prev_done =>
    let warns1 : List TaskDoneWarning :=
      match prev_done with
      | some pd => if offset ≠ pd + 1 then [.nonContinuous offset pd] else []
      | none => []
    match off.commit.getk topic_partition with
    | none => .error .keyError
    | some none => .error .typeError
    | some (some c) =>
      let warns2 : List TaskDoneWarning :=
        if offset ≤ c - 1 then [.previouslyCommitted offset (c - 1)] else []
      .ok ({ off with task_done := off.task_done.setk topic_partition (some offset) },
           warns1 ++ warns2)

/-- C4 (code bug): a fetched message whose partition has no stored commit
offset (commit cursor `None`, the initial state after assignment without a
stored group offset) makes task_done raise a TypeError from `None - 1`
instead of merely logging; the claim (and the spec, and the code's own
`is not None` guard two lines later) say the call never fails. -/
theorem task_done_none_commit_raises :
    task_done ⟨[(("t", 0), some 100)], [(("t", 0), none)], [(("t", 0), none)],
               [(("t", 0), none)]⟩
      ⟨"t", 0, 5, none, 3⟩ = .error .typeError := rfl

/-- With an integer commit cursor, a non-contiguous task_done offset only adds
a warning and the cursor still updates (the behaviour the spec describes,
reachable only once a commit cursor is an int; companion fact to the C4 bug
report, evaluated at the spec's own example: previous task_done 10, new
value 12). -/
theorem task_done_int_commit_warns_and_updates :
    task_done ⟨[(("t", 0), some 100)], [(("t", 0), none)], [(("t", 0), some 4)],
               [(("t", 0), some 10)]⟩
      ⟨"t", 0, 12, none, 3⟩ =
    .ok (⟨[(("t", 0), some 100)], [(("t", 0), none)], [(("t", 0), some 4)],
          [(("t", 0), some 12)]⟩, [.nonContinuous 12 10]) := rfl

/-- An OffsetResponse from the transport's time-indexed offset lookup. -/
structure OffsetResp where
  topic : String
  partition : Int
  error : RespError
  offsets : List Int
deriving DecidableEq

/-- The transport's `send_offset_request`, abstracted as a function from
(topic, partition, request_time, num_offsets) to the single response the
broker returns. -/
abbrev OffsetLookup := String → Int → Int → Int → OffsetResp

/-- get_partition_offsets (new.py lines 539-551): one OffsetRequest, check
the response error, assert the response echoes the requested topic and
partition, return the offset list. -/
def get_partition_offsets (lookup : OffsetLookup)
    (topic : String) (partition : Int) (request_time : Int) (num_offsets : Int) :
    Except KError (List Int) :=
  let resp := lookup topic partition request_time num_offsets
  match check_error resp.error with
  | some e => .error e
  | none =>
    if resp.topic = topic then
      if resp.partition = partition then .ok resp.offsets
      else .error .assertionError
    else .error .assertionError

/-- _reset_partition_offset (new.py lines 511-537).  `LATEST = -1`,
`EARLIEST = -2`; the configured policy name is compared against the literal
strings 'largest' and 'smallest'.  `excCtx` models `sys.exc_info()`: the
exception being handled when the call happens inside an except block
(`none` when called outside one); an unusable policy re-raises it, or raises
a fresh OffsetOutOfRangeError when there is none.  The result of
get_partition_offsets is unpacked as a 1-tuple (`(offset, ) = ...`), a Python
ValueError when the broker returns any other number of offsets. -/
def reset_partition_offset (cfg : Config) (lookup : OffsetLookup)
    (excCtx : Option KError) (topic_partition : TP) : Except KError Int :=
  let LATEST : Int := -1
  let EARLIEST : Int := -2
  let requestTime : Except KError Int :=
    if cfg.auto_offset_reset = "largest" then .ok LATEST
    else if cfg.auto_offset_reset = "smallest" then .ok EARLIEST
    else
      match excCtx with
      | none => .error (.offsetOutOfRange
          "Cannot reset partition offsets without a valid auto_offset_reset setting (largest|smallest)")
      | some e => .error e
  match requestTime with
  | .error e => .error e
  | .ok rt =>
    match get_partition_offsets lookup topic_partition.1 topic_partition.2 rt 1 with
    | .error e => .error e
    | .ok [offset] => .ok offset
    | .ok _ => .error .valueError

def lookup8 : OffsetLookup := fun t p _ _ => ⟨t, p, .noError, [77]⟩

def cfg8 : Config :=
  ⟨none, "latest", 1048576, 1, 100, 200, fun v => some v, false, 60000, -1⟩

/-- C8 counterexample: with the policy name "latest" (the name the claim says
selects the latest-time sentinel) and a transport that would answer offset 77
for any time sentinel, _reset_partition_offset does not resolve an offset at
all: it raises OffsetOutOfRangeError, because the source only recognizes the
names 'largest' and 'smallest'.  Likewise "earliest" is not recognized. -/
theorem reset_policy_latest_name_not_recognized :
    reset_partition_offset cfg8 lookup8 none ("t", 0) = .error (.offsetOutOfRange
      "Cannot reset partition offsets without a valid auto_offset_reset setting (largest|smallest)") ∧
    reset_partition_offset { cfg8 with auto_offset_reset := "earliest" } lookup8 none ("t", 0) =
      .error (.offsetOutOfRange
      "Cannot reset partition offsets without a valid auto_offset_reset setting (largest|smallest)") :=
  ⟨rfl, rfl⟩

/-- C8 as amended: the policy resolves exactly one replacement offset via the
transport's time-indexed lookup with `num_offsets = 1`, using the latest-time
sentinel (-1) when the configured name is 'largest' and the earliest-time
sentinel (-2) when it is 'smallest'; any other name (including 'latest' and
'earliest') raises the misconfiguration error naming the two valid values, or
re-raises the triggering out-of-range failure when one is in flight. -/
theorem reset_policy_sentinels
    (cfg : Config) (lookup : OffsetLookup) (excCtx : Option KError)
    (t : String) (p : Int) (v : Int) :
    (cfg.auto_offset_reset = "largest" →
      lookup t p (-1) 1 = ⟨t, p, .noError, [v]⟩ →
      reset_partition_offset cfg lookup excCtx (t, p) = .ok v) ∧
    (cfg.auto_offset_reset = "smallest" →
      lookup t p (-2) 1 = ⟨t, p, .noError, [v]⟩ →
      reset_partition_offset cfg lookup excCtx (t, p) = .ok v) ∧
    (cfg.auto_offset_reset ≠ "largest" → cfg.auto_offset_reset ≠ "smallest" →
      reset_partition_offset cfg lookup excCtx (t, p) =
        .error (match excCtx with
          | some e => e
          | none => .offsetOutOfRange
              "Cannot reset partition offsets without a valid auto_offset_reset setting (largest|smallest)")) := by
  refine ⟨?_, ?_, ?_⟩
  · intro hpol hresp
    have hg : get_partition_offsets lookup t p (-1) 1 = .ok [v] := by
      simp [get_partition_offsets, hresp, check_error]
    unfold reset_partition_offset
    rw [hpol]
    simp [hg]
  · intro hpol hresp
    have hg : get_partition_offsets lookup t p (-2) 1 = .ok [v] := by
      simp [get_partition_offsets, hresp, check_error]
    unfold reset_partition_offset
    rw [hpol]
    simp [hg]
  · intro h1 h2
    unfold reset_partition_offset
    simp only [if_neg h1, if_neg h2]
    cases excCtx <;> rfl

theorem reset_policy_sentinels_witness :
    reset_partition_offset { cfg8 with auto_offset_reset := "largest" } lookup8 none ("t", 0) =
      .ok 77 ∧
    reset_partition_offset { cfg8 with auto_offset_reset := "smallest" } lookup8 none ("t", 0) =
      .ok 77 ∧
    reset_partition_offset cfg8 lookup8 (some .requestTimedOut) ("t", 0) =
      .error .requestTimedOut := by
  have h1 := (reset_policy_sentinels { cfg8 with auto_offset_reset := "largest" }
    lookup8 none "t" 0 77).1 rfl rfl
  have h2 := (reset_policy_sentinels { cfg8 with auto_offset_reset := "smallest" }
    lookup8 none "t" 0 77).2.1 rfl rfl
  have h3 := (reset_policy_sentinels cfg8 lookup8 (some .requestTimedOut) "t" 0 77).2.2
    (by decide) (by decide)
  exact ⟨h1, h2, h3⟩

/-- A raw message inside a fetch response: key and undeserialized value
(byte payloads abstracted as integers). -/
structure RawMessage where
  key : Option Int
  value : Int
deriving DecidableEq

/-- A per-partition fetch response: error code, high-water mark, and the
ordered (offset, message) pairs. -/
structure FetchResp where
  topic : String
  partition : Int
  error : RespError
  highwaterMark : Int
  messages : List (Int × RawMessage)
deriving DecidableEq

/-- A FetchRequest as built by fetch_messages from the fetch cursor dict
(the offset field carries the dict value verbatim). -/
structure FetchRequest where
  topic : String
  partition : Int
  offset : Option Int
  max_bytes : Int
deriving DecidableEq

/-- The request-building loop of fetch_messages (new.py lines 450-453): one
FetchRequest per entry of the fetch cursor dict. -/
def buildFetches (cfg : Config) (off : OffsetsStruct) : List FetchRequest :=
  off.fetch.map (fun p => ⟨p.1.1, p.1.2, p.2, cfg.fetch_message_max_bytes⟩)

/-- The per-message loop of fetch_messages on a successful per-partition
response (new.py lines 498-509): deserialize (a failure propagates to the
consumer of the generator and ends it, with no cursor change for that
message), then advance the fetch cursor to `offset + 1`, then yield. -/
def processMsgs (deser : Int → Option Int) (topic : String) (partition : Int) :
    OffsetsStruct → List KafkaMessage → List (Int × RawMessage) →
    OffsetsStruct × List KafkaMessage × Option KError
  | off, recs, [] => (off, recs, none)
  | off, recs, (offset, message) :: rest =>
    match deser message.value with
    | none => (off, recs, some .deserializationError)
    | some v =>
      processMsgs deser topic partition
        { off with fetch := off.fetch.setk (topic, partition) (some (offset + 1)) }
        (recs ++ [⟨topic, partition, offset, message.key, v⟩]) rest

/-- The records the per-message loop emits from a list of raw messages
(those before the first deserialization failure). -/
def emitOk (deser : Int → Option Int) (topic : String) (partition : Int)
    (msgs : List (Int × RawMessage)) : List KafkaMessage :=
  msgs.filterMap (fun p => (deser p.2.value).map (fun v => ⟨topic, partition, p.1, p.2.key, v⟩))

/-- The fetch cursor state after the per-message loop consumes a list of raw
messages without failure: unchanged for an empty list, else set to the last
offset plus one. -/
def setLastFetch (topic : String) (partition : Int) (off : OffsetsStruct)
    (msgs : List (Int × RawMessage)) : OffsetsStruct :=
  match msgs.getLast? with
  | none => off
  | some (o, _) => { off with fetch := off.fetch.setk (topic, partition) (some (o + 1)) }

/-- Outcome of one fetch_messages generator run. -/
inductive FetchOutcome where
  | finished
  | raised (e : KError)
deriving DecidableEq

/-- Result of one fetch_messages generator run: final offsets, emitted
records in order, number of metadata-refresh invocations, and the outcome. -/
structure FetchResult where
  offsets : OffsetsStruct
  records : List KafkaMessage
  refreshes : Nat
  outcome : FetchOutcome

/-- The response loop of fetch_messages (new.py lines 467-509).  Per
response: out-of-range resets the partition's fetch cursor via
_reset_partition_offset called inside the except block (so with the caught
OffsetOutOfRangeError as exception context) and continues; stale leadership
refreshes metadata (counted; the blocking backoff loop of
_refresh_metadata_on_error is abstracted to the count) and continues;
request-timed-out just continues; any other nonzero error propagates and
ends the generator; a successful response records the high-water mark and
runs the per-message loop. -/
def processResps (cfg : Config) (lookup : OffsetLookup) :
    OffsetsStruct → List KafkaMessage → Nat → List FetchResp → FetchResult
  | off, recs, refr, [] => ⟨off, recs, refr, .finished⟩
  | off, recs, refr, resp :: rest =>
    let topic_partition : TP := (resp.topic, resp.partition)
    match check_error resp.error with
    | some (.offsetOutOfRange m) =>
      match off.fetch.getk topic_partition with
      | none => ⟨off, recs, refr, .raised .keyError⟩
      | some _ =>
        match reset_partition_offset cfg lookup (some (.offsetOutOfRange m)) topic_partition with
        | .error e => ⟨off, recs, refr, .raised e⟩
        | .ok v =>
          processResps cfg lookup
            { off with fetch := off.fetch.setk topic_partition (some v) } recs refr rest
    | some .notLeaderForPartition => processResps cfg lookup off recs (refr + 1) rest
    | some .requestTimedOut => processResps cfg lookup off recs refr rest
    | some e => ⟨off, recs, refr, .raised e⟩
    | none =>
      let off1 := { off with highwater := off.highwater.setk topic_partition (some resp.highwaterMark) }
      match processMsgs cfg.deserializer_class resp.topic resp.partition off1 recs resp.messages with
      | (off2, recs2, none) => processResps cfg lookup off2 recs2 refr rest
      | (off2, recs2, some e) => ⟨off2, recs2, refr, .raised e⟩

/-- fetch_messages (new.py lines 444-509), with the generator run eagerly:
a wholesale FailedPayloadsError refreshes metadata and ends the call with no
records; otherwise the response loop runs.  (The lazy generator interleaves
these effects with the caller's pulls; the eager run produces the same final
state, record sequence and outcome.) -/
def fetch_messages (cfg : Config) (lookup : OffsetLookup) (off : OffsetsStruct)
    (transport : Except Unit (List FetchResp)) : FetchResult :=
  match transport with
  | .error _ => ⟨off, [], 1, .finished⟩
  | .ok resps => processResps cfg lookup off [] 0 resps

theorem emitOk_cons_ok {deser : Int → Option Int} {topic : String} {partition : Int}
    {o : Int} {m : RawMessage} {v : Int} (msgs : List (Int × RawMessage))
    (hv : deser m.value = some v) :
    emitOk deser topic partition ((o, m) :: msgs) =
      (⟨topic, partition, o, m.key, v⟩ : KafkaMessage) :: emitOk deser topic partition msgs := by
  simp [emitOk, List.filterMap_cons, hv]

theorem emitOk_length_all_ok {deser : Int → Option Int} {topic : String} {partition : Int} :
    ∀ (msgs : List (Int × RawMessage)),
    (∀ q ∈ msgs, (deser q.2.value).isSome) →
    (emitOk deser topic partition msgs).length = msgs.length := by
  intro msgs
  induction msgs with
  | nil => intro _; rfl
  | cons q tail ih =>
    intro hall
    obtain ⟨v, hv⟩ := Option.isSome_iff_exists.mp (hall q (List.mem_cons_self _ _))
    obtain ⟨o, m⟩ := q
    rw [emitOk_cons_ok tail hv]
    simp only [List.length_cons]
    rw [ih (fun x hx => hall x (List.mem_cons_of_mem _ hx))]

theorem setLastFetch_cons (topic : String) (partition : Int) (off : OffsetsStruct)
    (o : Int) (m : RawMessage) (msgs : List (Int × RawMessage)) :
    setLastFetch topic partition off ((o, m) :: msgs) =
      setLastFetch topic partition
        { off with fetch := off.fetch.setk (topic, partition) (some (o + 1)) } msgs := by
  cases msgs with
  | nil => rfl
  | cons x xs =>
    unfold setLastFetch
    rw [List.getLast?_cons_cons]
    rcases h : (x :: xs).getLast? with _ | ⟨o2, m2⟩
    · simp at h
    · simp only []
      congr 1
      exact OffsetMap.setk_setk_same.symm

theorem processMsgs_append_all_ok (deser : Int → Option Int) (topic : String) (partition : Int) :
    ∀ (l1 l2 : List (Int × RawMessage)) (st : OffsetsStruct) (recs : List KafkaMessage),
    (∀ q ∈ l1, (deser q.2.value).isSome) →
    processMsgs deser topic partition st recs (l1 ++ l2) =
      processMsgs deser topic partition (setLastFetch topic partition st l1)
        (recs ++ emitOk deser topic partition l1) l2 := by
  intro l1
  induction l1 with
  | nil => intro l2 st recs _; simp [setLastFetch, emitOk]
  | cons q tail ih =>
    intro l2 st recs hall
    obtain ⟨v, hv⟩ := Option.isSome_iff_exists.mp (hall q (List.mem_cons_self _ _))
    obtain ⟨o, m⟩ := q
    rw [List.cons_append]
    have hstep : processMsgs deser topic partition st recs ((o, m) :: (tail ++ l2)) =
        processMsgs deser topic partition
          { st with fetch := st.fetch.setk (topic, partition) (some (o + 1)) }
          (recs ++ [⟨topic, partition, o, m.key, v⟩]) (tail ++ l2) := by
      conv_lhs => rw [processMsgs]
      rw [hv]
    rw [hstep, ih l2 _ _ (fun x hx => hall x (List.mem_cons_of_mem _ hx)),
      setLastFetch_cons, emitOk_cons_ok tail hv]
    simp

theorem processMsgs_all_ok (deser : Int → Option Int) (topic : String) (partition : Int)
    (l : List (Int × RawMessage)) (st : OffsetsStruct) (recs : List KafkaMessage)
    (hall : ∀ q ∈ l, (deser q.2.value).isSome) :
    processMsgs deser topic partition st recs l =
      (setLastFetch topic partition st l, recs ++ emitOk deser topic partition l, none) := by
  have h := processMsgs_append_all_ok deser topic partition l [] st recs hall
  rw [List.append_nil] at h
  rw [h]
  rfl

theorem getLast?_take_succ {α : Type} : ∀ (l : List α) (k : Nat), k < l.length →
    (l.take (k + 1)).getLast? = l.get? k := by
  intro l
  induction l with
  | nil => intro k h; cases h
  | cons x xs ih =>
    intro k h
    cases k with
    | zero => simp
    | succ k2 =>
      have h2 : k2 < xs.length := Nat.lt_of_succ_lt_succ h
      rcases ht : xs.take (k2 + 1) with _ | ⟨y, ys⟩
      · exfalso
        have hlen : (xs.take (k2 + 1)).length = 0 := by rw [ht]; rfl
        rw [List.length_take] at hlen
        omega
      · rw [List.take_succ_cons, ht, List.getLast?_cons_cons, ← ht, ih k2 h2]
        rfl

theorem buildFetches_mem {cfg : Config} {st : OffsetsStruct} {tp : TP} {v : Option Int}
    (h : st.fetch.getk tp = some v) :
    (⟨tp.1, tp.2, v, cfg.fetch_message_max_bytes⟩ : FetchRequest) ∈ buildFetches cfg st :=
  List.mem_map.mpr ⟨(tp, v), OffsetMap.mem_of_getk h, rfl⟩

/-- C6: when the caller-supplied deserializer fails on the message at offset
`o` of a partition, the per-message loop ends the record sequence with the
propagated failure, emits exactly the messages before `o`, and leaves the
fetch cursor at `o` (never past it, assuming the broker returned contiguous
offsets), so the next fetch_messages call builds a request for offset `o`
again; conversely, after each emitted record the fetch cursor equals that
record's offset plus one (stated on every prefix of the message list, i.e.
at each emission point of the generator). -/
theorem fetch_deser_failure_and_cursor_advance
    (cfg : Config) (topic : String) (partition : Int)
    (st : OffsetsStruct) (recs : List KafkaMessage) :
    (∀ (good rest : List (Int × RawMessage)) (o : Int) (m : RawMessage),
      (∀ q ∈ good, (cfg.deserializer_class q.2.value).isSome) →
      cfg.deserializer_class m.value = none →
      ((good = [] ∧ st.fetch.getk (topic, partition) = some (some o)) ∨
        (∃ m2, good.getLast? = some (o - 1, m2))) →
      processMsgs cfg.deserializer_class topic partition st recs (good ++ (o, m) :: rest) =
        (setLastFetch topic partition st good,
         recs ++ emitOk cfg.deserializer_class topic partition good,
         some .deserializationError) ∧
      (emitOk cfg.deserializer_class topic partition good).length = good.length ∧
      (setLastFetch topic partition st good).fetch.getk (topic, partition) = some (some o) ∧
      (⟨topic, partition, some o, cfg.fetch_message_max_bytes⟩ : FetchRequest) ∈
        buildFetches cfg (setLastFetch topic partition st good)) ∧
    (∀ (msgs : List (Int × RawMessage)) (k : Nat) (o2 : Int) (m2 : RawMessage),
      msgs.get? k = some (o2, m2) →
      (∀ q ∈ msgs.take (k + 1), (cfg.deserializer_class q.2.value).isSome) →
      (processMsgs cfg.deserializer_class topic partition st recs (msgs.take (k + 1))).2.2 = none ∧
      (processMsgs cfg.deserializer_class topic partition st recs (msgs.take (k + 1))).2.1.length =
        recs.length + (k + 1) ∧
      (processMsgs cfg.deserializer_class topic partition st recs
          (msgs.take (k + 1))).1.fetch.getk (topic, partition) = some (some (o2 + 1))) := by
  constructor
  · intro good rest o m hgood hfail hlast
    have hmain : processMsgs cfg.deserializer_class topic partition st recs
        (good ++ (o, m) :: rest) =
        (setLastFetch topic partition st good,
         recs ++ emitOk cfg.deserializer_class topic partition good,
         some .deserializationError) := by
      rw [processMsgs_append_all_ok _ _ _ good ((o, m) :: rest) st recs hgood]
      conv_lhs => rw [processMsgs]
      rw [hfail]
    have hfetch : (setLastFetch topic partition st good).fetch.getk (topic, partition) =
        some (some o) := by
      rcases hlast with ⟨hnil, hf⟩ | ⟨m2, hl⟩
      · subst hnil
        simpa [setLastFetch] using hf
      · unfold setLastFetch
        rw [hl]
        show (st.fetch.setk (topic, partition) (some (o - 1 + 1))).getk (topic, partition) =
          some (some o)
        rw [OffsetMap.getk_setk_same, Int.sub_add_cancel]
    exact ⟨hmain, emitOk_length_all_ok good hgood, hfetch, buildFetches_mem hfetch⟩
  · intro msgs k o2 m2 hget hall
    have hk : k < msgs.length := by
      rcases List.get?_eq_some.mp hget with ⟨h, _⟩
      exact h
    have hmain := processMsgs_all_ok cfg.deserializer_class topic partition
      (msgs.take (k + 1)) st recs hall
    have hlast : (msgs.take (k + 1)).getLast? = some (o2, m2) := by
      rw [getLast?_take_succ msgs k hk, hget]
    rw [hmain]
    refine ⟨rfl, ?_, ?_⟩
    · simp only [List.length_append]
      rw [emitOk_length_all_ok _ hall, List.length_take]
      omega
    · unfold setLastFetch
      rw [hlast]
      exact OffsetMap.getk_setk_same

def cfg6 : Config :=
  ⟨none, "largest", 1048576, 1, 100, 200,
   fun v => if v = 99 then none else some v, false, 60000, -1⟩

def st6 : OffsetsStruct := ⟨[(("t", 0), some 10)], [], [], []⟩

theorem fetch_deser_failure_and_cursor_advance_witness :
    (processMsgs cfg6.deserializer_class "t" 0 st6 []
        ([(10, ⟨none, 7⟩)] ++ (11, ⟨none, 99⟩) :: [(12, ⟨none, 8⟩)])).2.2 =
      some .deserializationError ∧
    (processMsgs cfg6.deserializer_class "t" 0 st6 []
        ([(10, ⟨none, 7⟩)] ++ (11, ⟨none, 99⟩) :: [(12, ⟨none, 8⟩)])).1.fetch.getk ("t", 0) =
      some (some 11) ∧
    (processMsgs cfg6.deserializer_class "t" 0 st6 []
        ([(10, ⟨none, 7⟩), (11, ⟨none, 99⟩), (12, ⟨none, 8⟩)].take 1)).1.fetch.getk ("t", 0) =
      some (some (10 + 1)) := by
  have h := fetch_deser_failure_and_cursor_advance cfg6 "t" 0 st6 []
  have h1 := h.1 [(10, ⟨none, 7⟩)] [(12, ⟨none, 8⟩)] 11 ⟨none, 99⟩
    (by decide) rfl (Or.inr ⟨⟨none, 7⟩, by decide⟩)
  have h2 := h.2 [(10, ⟨none, 7⟩), (11, ⟨none, 99⟩), (12, ⟨none, 8⟩)] 0 10 ⟨none, 7⟩
    rfl (by decide)
  refine ⟨?_, ?_, h2.2.2⟩
  · rw [h1.1]
  · rw [h1.1]
    exact h1.2.2.1

/-- C5: an out-of-range error response for a partition rewrites that
partition's fetch cursor to the Reset-Policy-resolved value, emits no record
for it, and the rest of the round's responses are processed exactly as they
would be from that state: the response loop on `resp :: rest` equals the loop
on `rest` started from the state with the cursor rewritten. -/
theorem fetch_out_of_range_resets_and_continues
    (cfg : Config) (lookup : OffsetLookup) (off : OffsetsStruct)
    (recs : List KafkaMessage) (refr : Nat) (resp : FetchResp)
    (rest : List FetchResp) (f0 : Option Int) (v : Int)
    (herr : resp.error = .offsetOutOfRange)
    (hf : off.fetch.getk (resp.topic, resp.partition) = some f0)
    (hreset : reset_partition_offset cfg lookup (some (.offsetOutOfRange "response"))
      (resp.topic, resp.partition) = .ok v) :
    processResps cfg lookup off recs refr (resp :: rest) =
      processResps cfg lookup
        { off with fetch := off.fetch.setk (resp.topic, resp.partition) (some v) }
        recs refr rest := by
  conv_lhs => rw [processResps]
  rw [herr]
  simp only [check_error]
  rw [hf, hreset]

def off5 : OffsetsStruct := ⟨[(("t", 0), some 100), (("u", 0), some 5)], [], [], []⟩

theorem fetch_out_of_range_resets_and_continues_witness :
    processResps cfgG lookup8 off5 [] 0
        [⟨"t", 0, .offsetOutOfRange, 101, []⟩, ⟨"u", 0, .noError, 9, [(5, ⟨none, 42⟩)]⟩] =
      processResps cfgG lookup8
        ⟨[(("t", 0), some 77), (("u", 0), some 5)], [], [], []⟩ [] 0
        [⟨"u", 0, .noError, 9, [(5, ⟨none, 42⟩)]⟩] := by
  have h := fetch_out_of_range_resets_and_continues cfgG lookup8 off5 [] 0
    ⟨"t", 0, .offsetOutOfRange, 101, []⟩ [⟨"u", 0, .noError, 9, [(5, ⟨none, 42⟩)]⟩]
    (some 100) 77 rfl rfl rfl
  exact h

/-- Broker metadata as seen through the client: topics and their partition
ids (`self._client.topic_partitions` / `get_partition_ids_for_topic`). -/
structure Metadata where
  topics : List (String × List Int)

/-- `topic in self._client.topic_partitions`. -/
def Metadata.hasTopic (md : Metadata) (t : String) : Bool :=
  md.topics.any (fun p => p.1 = t)

/-- Modelled from the spec: the client's get_partition_ids_for_topic
(kafka.client is not under src/) — "partitionsFor(topic) -> set<int>;
empty/absent implies unknown topic" (§6). -/
def Metadata.partitionIds (md : Metadata) (t : String) : List Int :=
  match md.topics.find? (fun p => p.1 = t) with
  | some p => p.2
  | none => []

/-- A topic/partition specification passed to set_topic_partitions, as the
tagged variant of the source's runtime type dispatch (str / tuple / dict /
anything else; dict keys: str with int, list or other value, tuple, or any
other key type). -/
inductive DictEntry where
  | strInt (topic : String) (p : Int)
  | strList (topic : String) (ps : List Int)
  | strOther (topic : String)
  | tupKey (topic : String) (p : Int) (offset : Int)
  | otherKey (desc : String)

inductive TopicSpec where
  | str (topic : String)
  | tup2 (topic : String) (p : Int)
  | tup3 (topic : String) (p : Int) (offset : Int)
  | dict (entries : List DictEntry)
  | other (desc : String)

/-- _consume_topic_partition (new.py lines 428-442): validate against broker
metadata, then append to self._topics.  (The isinstance checks on the
topic/partition types are statically satisfied by the typed variants.) -/
def consume_topic_partition (md : Metadata) (topics : List TP)
    (topic : String) (partition : Int) : Except KError (List TP) :=
  if md.hasTopic topic = false then
    .error (.unknownTopicOrPartition "Topic not found in broker metadata")
  else if (md.partitionIds topic).contains partition = false then
    .error (.unknownTopicOrPartition "Partition not found in Topic in broker metadata")
  else .ok (topics ++ [(topic, partition)])

/-- Folding consume_topic_partition over a partition list
(the str branch and the dict str-to-list branch). -/
def consumeAll (md : Metadata) : List TP → String → List Int → Except KError (List TP)
  | topics, _, [] => .ok topics
  | topics, topic, p :: ps =>
    match consume_topic_partition md topics topic p with
    | .error e => .error e
    | .ok topics2 => consumeAll md topics2 topic ps

/-- One dict entry of the `{ topic: partitions }` / `{ (topic, partition):
offset }` branch (new.py lines 374-395).  A dict key that is neither a
string nor a tuple falls through the if/elif chain with no else: it is
silently ignored. -/
def processEntry (md : Metadata) (st : List TP × OffsetMap) :
    DictEntry → Except KError (List TP × OffsetMap)
  | .strInt topic p =>
    match consume_topic_partition md st.1 topic p with
    | .error e => .error e
    | .ok topics2 => .ok (topics2, st.2)
  | .strList topic ps =>
    match consumeAll md st.1 topic ps with
    | .error e => .error e
    | .ok topics2 => .ok (topics2, st.2)
  | .strOther _ =>
    .error (.configError "Unknown topic type (dict key must be int or list/tuple of ints)")
  | .tupKey topic p offset =>
    match consume_topic_partition md st.1 topic p with
    | .error e => .error e
    | .ok topics2 => .ok (topics2, st.2.setk (topic, p) (some offset))
  | .otherKey _ => .ok st

def processEntries (md : Metadata) :
    List DictEntry → List TP × OffsetMap → Except KError (List TP × OffsetMap)
  | [], st => .ok st
  | e :: es, st =>
    match processEntry md st e with
    | .error err => .error err
    | .ok st2 => processEntries md es st2

/-- One argument of set_topic_partitions (new.py lines 357-398).  For a
3-tuple the fetch offset is stored before the pair is validated; for a
`(topic, partition): offset` dict entry, after. -/
def processSpec (md : Metadata) (st : List TP × OffsetMap) :
    TopicSpec → Except KError (List TP × OffsetMap)
  | .str topic =>
    match consumeAll md st.1 topic (md.partitionIds topic) with
    | .error e => .error e
    | .ok topics2 => .ok (topics2, st.2)
  | .tup2 topic p =>
    match consume_topic_partition md st.1 topic p with
    | .error e => .error e
    | .ok topics2 => .ok (topics2, st.2)
  | .tup3 topic p offset =>
    let fetch2 := st.2.setk (topic, p) (some offset)
    match consume_topic_partition md st.1 topic p with
    | .error e => .error e
    | .ok topics2 => .ok (topics2, fetch2)
  | .dict entries => processEntries md entries st
  | .other d => .error (.configError ("Unknown topic type " ++ d))

def processSpecs (md : Metadata) :
    List TopicSpec → List TP × OffsetMap → Except KError (List TP × OffsetMap)
  | [], st => .ok st
  | a :: args, st =>
    match processSpec md st a with
    | .error e => .error e
    | .ok st2 => processSpecs md args st2

/-- A response to an OffsetFetchRequest: error code and the stored offset
(-1 signals that no commit is stored). -/
structure OffsetFetchResp where
  error : RespError
  offset : Int

/-- _get_commit_offsets (new.py lines 127-148): one offset-fetch request per
assigned partition; an UnknownTopicOrPartitionError from this lookup is
tolerated (0.8.1.1 compatibility), any other error propagates; offset -1
maps to commit None, anything else to the stored value. -/
def get_commit_offsets (stored : TP → OffsetFetchResp) :
    List TP → OffsetMap → Except KError OffsetMap
  | [], commit => .ok commit
  | tp :: rest, commit =>
    let resp := stored tp
    match check_error resp.error with
    | some (.unknownTopicOrPartition _) =>
      get_commit_offsets stored rest
        (commit.setk tp (if resp.offset = -1 then none else some resp.offset))
    | some e => .error e
    | none =>
      get_commit_offsets stored rest
        (commit.setk tp (if resp.offset = -1 then none else some resp.offset))

/-- `if topic_partition not in self._offsets.commit: commit[tp] = None`
(new.py lines 407-409). -/
def commitDefault (commit : OffsetMap) (tp : TP) : OffsetMap :=
  if (commit.getk tp).isSome then commit else commit.setk tp none

/-- The update-missing-offsets loop of set_topic_partitions (new.py lines
405-420): default the commit cursor to None when absent; leave a fetch
cursor set from user args alone; otherwise use the commit cursor when it is
an int, else ask the Reset Policy.  (After `commitDefault` the partition's
commit entry always exists, so the wildcard row is only reached with value
None, matching the `else` of `is not None`.) -/
def fillOffsets (cfg : Config) (lookup : OffsetLookup) :
    List TP → OffsetMap → OffsetMap → Except KError (OffsetMap × OffsetMap)
  | [], fetch, commit => .ok (fetch, commit)
  | tp :: rest, fetch, commit =>
    if (fetch.getk tp).isSome then
      fillOffsets cfg lookup rest fetch (commitDefault commit tp)
    else
      match (commitDefault commit tp).getk tp with
      | some (some c) =>
        fillOffsets cfg lookup rest (fetch.setk tp (some c)) (commitDefault commit tp)
      | _ =>
        match reset_partition_offset cfg lookup none tp with
        | .error e => .error e
        | .ok v => fillOffsets cfg lookup rest (fetch.setk tp (some v)) (commitDefault commit tp)

/-- _reset_highwater_offsets / _reset_task_done_offsets (new.py lines
150-156): set every assigned partition's entry to None. -/
def resetToNone : List TP → OffsetMap → OffsetMap
  | [], m => m
  | tp :: rest, m => resetToNone rest (m.setk tp none)

/-- The assignment and offset state set_topic_partitions rebuilds. -/
structure ResolvedState where
  topics : List TP
  offsets : OffsetsStruct

/-- set_topic_partitions (new.py lines 318-426): reset the topic list and
the four cursor dicts, dispatch every argument, fetch stored group commits
when a group is configured, fill missing commit/fetch cursors, and
initialize highwater and task_done to None for every assigned partition.
`stored` and `lookup` are the transport's answers for the offset-fetch and
offset-lookup requests. -/
def set_topic_partitions (cfg : Config) (md : Metadata)
    (stored : TP → OffsetFetchResp) (lookup : OffsetLookup)
    (args : List TopicSpec) : Except KError ResolvedState :=
  match processSpecs md args ([], []) with
  | .error e => .error e
  | .ok (tps, fetch0) =>
    match (if groupUnset cfg.group_id then .ok [] else get_commit_offsets stored tps []) with
    | .error e => .error e
    | .ok commit0 =>
      match fillOffsets cfg lookup tps fetch0 commit0 with
      | .error e => .error e
      | .ok (fetch1, commit1) =>
        .ok ⟨tps, ⟨fetch1, resetToNone tps [], commit1, resetToNone tps []⟩⟩

theorem commitDefault_getk_self (commit : OffsetMap) (tp : TP) :
    ∃ x, (commitDefault commit tp).getk tp = some x := by
  unfold commitDefault
  by_cases h : (commit.getk tp).isSome
  · rw [if_pos h]
    exact Option.isSome_iff_exists.mp h
  · rw [if_neg h]
    exact ⟨none, OffsetMap.getk_setk_same⟩

theorem commitDefault_mono {commit : OffsetMap} {tp tq : TP} {v : Option Int}
    (h : commit.getk tq = some v) : (commitDefault commit tp).getk tq = some v := by
  unfold commitDefault
  by_cases hs : (commit.getk tp).isSome
  · rw [if_pos hs]
    exact h
  · rw [if_neg hs]
    have hne : tq ≠ tp := by
      intro hc
      rw [← hc, h] at hs
      exact hs rfl
    rw [OffsetMap.getk_setk_ne hne]
    exact h

theorem resetToNone_getk_notmem :
    ∀ (tps : List TP) (m : OffsetMap) (tp : TP), tp ∉ tps →
    (resetToNone tps m).getk tp = m.getk tp := by
  intro tps
  induction tps with
  | nil => intro m tp _; rfl
  | cons tp0 rest ih =>
    intro m tp hnm
    have h1 : tp ≠ tp0 := fun hc => hnm (hc ▸ List.mem_cons_self _ _)
    have h2 : tp ∉ rest := fun hc => hnm (List.mem_cons_of_mem _ hc)
    show (resetToNone rest (m.setk tp0 none)).getk tp = m.getk tp
    rw [ih _ tp h2, OffsetMap.getk_setk_ne h1]

theorem resetToNone_getk_mem :
    ∀ (tps : List TP) (m : OffsetMap) (tp : TP), tp ∈ tps →
    (resetToNone tps m).getk tp = some none := by
  intro tps
  induction tps with
  | nil => intro m tp h; cases h
  | cons tp0 rest ih =>
    intro m tp htp
    by_cases hr : tp ∈ rest
    · exact ih _ tp hr
    · have htp0 : tp = tp0 := by
        rcases List.mem_cons.mp htp with h | h
        · exact h
        · exact absurd h hr
      subst htp0
      show (resetToNone rest (m.setk tp none)).getk tp = some none
      rw [resetToNone_getk_notmem rest _ tp hr, OffsetMap.getk_setk_same]

/-- C9 counterexample: a mapping whose key is neither a topic string nor a
(topic, partition) tuple is dropped by the if/elif chain (no else branch at
new.py lines 375-395): set_topic_partitions succeeds with an empty
assignment instead of failing with a configuration error. -/
theorem malformed_dict_key_silently_ignored :
    set_topic_partitions cfgG ⟨[("t", [0, 1, 2])]⟩ (fun _ => ⟨.noError, -1⟩) lookup8
      [.dict [.otherKey "intkey"]] = .ok ⟨[], ⟨[], [], [], []⟩⟩ := rfl

/-- C9 as amended: during partition resolution every resolved
(topic, partition) pair absent from broker metadata fails the call with an
unknown-topic-or-partition error, and an argument that is not a string,
tuple or mapping, or a mapping entry with a string key but a value that is
neither an int nor a list/tuple, fails with a configuration error; however a
mapping entry whose key is neither a string nor a tuple is silently ignored
(the key dispatch has no else branch), not rejected. -/
theorem resolver_validation_and_ignored_dict_key
    (cfg : Config) (md : Metadata) (stored : TP → OffsetFetchResp)
    (lookup : OffsetLookup) (topics : List TP) (t d : String) (p : Int) :
    ((md.hasTopic t = false ∨ (md.partitionIds t).contains p = false) →
      ∃ m, consume_topic_partition md topics t p = .error (.unknownTopicOrPartition m)) ∧
    (∃ m, set_topic_partitions cfg md stored lookup [.other d] = .error (.configError m)) ∧
    (∃ m, set_topic_partitions cfg md stored lookup [.dict [.strOther t]] =
      .error (.configError m)) ∧
    set_topic_partitions cfg md stored lookup [.dict [.otherKey d]] =
      .ok ⟨[], ⟨[], [], [], []⟩⟩ := by
  refine ⟨?_, ⟨_, rfl⟩, ⟨_, rfl⟩, ?_⟩
  · intro h
    rcases h with h | h
    · refine ⟨"Topic not found in broker metadata", ?_⟩
      unfold consume_topic_partition
      rw [h]
      rfl
    · by_cases hT : md.hasTopic t = false
      · refine ⟨"Topic not found in broker metadata", ?_⟩
        unfold consume_topic_partition
        rw [hT]
        rfl
      · refine ⟨"Partition not found in Topic in broker metadata", ?_⟩
        have hT2 : md.hasTopic t = true := by
          revert hT
          cases md.hasTopic t <;> simp
        unfold consume_topic_partition
        rw [hT2, h]
        rfl
  · cases hg : groupUnset cfg.group_id
    · unfold set_topic_partitions
      rw [hg]
      rfl
    · unfold set_topic_partitions
      rw [hg]
      rfl

theorem resolver_validation_and_ignored_dict_key_witness :
    (∃ m, consume_topic_partition ⟨[("t", [0, 1, 2])]⟩ [] "x" 0 =
      .error (.unknownTopicOrPartition m)) ∧
    set_topic_partitions cfgG ⟨[("t", [0, 1, 2])]⟩ (fun _ => ⟨.noError, -1⟩) lookup8
      [.dict [.otherKey "42"]] = .ok ⟨[], ⟨[], [], [], []⟩⟩ := by
  have h := resolver_validation_and_ignored_dict_key cfgG ⟨[("t", [0, 1, 2])]⟩
    (fun _ => ⟨.noError, -1⟩) lookup8 [] "x" "42" 0
  exact ⟨h.1 (Or.inl rfl), h.2.2.2⟩

theorem fillOffsets_spec (cfg : Config) (lookup : OffsetLookup) :
    ∀ (tps : List TP) (fetch commit fetch1 commit1 : OffsetMap),
    fillOffsets cfg lookup tps fetch commit = .ok (fetch1, commit1) →
    (∀ tp v, fetch.getk tp = some v → fetch1.getk tp = some v) ∧
    (∀ tp v, commit.getk tp = some v → commit1.getk tp = some v) ∧
    (∀ tp, tp ∈ tps →
      (∃ x, commit1.getk tp = some x) ∧
      (fetch.getk tp = none →
        (∀ c, commit1.getk tp = some (some c) → fetch1.getk tp = some (some c)) ∧
        (commit1.getk tp = some none →
          ∃ w, reset_partition_offset cfg lookup none tp = .ok w ∧
            fetch1.getk tp = some (some w)))) := by
  intro tps
  induction tps with
  | nil =>
    intro fetch commit fetch1 commit1 h
    simp only [fillOffsets] at h
    injection h with h2
    injection h2 with hf hc
    subst hf
    subst hc
    exact ⟨fun tp v hv => hv, fun tp v hv => hv,
      fun tp htp => absurd htp (List.not_mem_nil tp)⟩
  | cons tp0 rest ih =>
    intro fetch commit fetch1 commit1 h
    simp only [fillOffsets] at h
    split at h
    · rename_i hsome
      obtain ⟨F1, Cm, P⟩ := ih fetch (commitDefault commit tp0) fetch1 commit1 h
      refine ⟨F1, fun tp v hv => Cm tp v (commitDefault_mono hv), ?_⟩
      intro tp htp
      by_cases htp0 : tp = tp0
      · subst htp0
        obtain ⟨x, hx⟩ := commitDefault_getk_self commit tp
        refine ⟨⟨x, Cm tp x hx⟩, ?_⟩
        intro hnone
        rw [hnone] at hsome
        simp at hsome
      · have htp' : tp ∈ rest := by
          rcases List.mem_cons.mp htp with h' | h'
          · exact absurd h' htp0
          · exact h'
        exact P tp htp'
    · rename_i hnofetch
      split at h
      · rename_i c hcd
        obtain ⟨F1, Cm, P⟩ := ih (fetch.setk tp0 (some c)) (commitDefault commit tp0)
          fetch1 commit1 h
        have hfmono : ∀ tp v, fetch.getk tp = some v → fetch1.getk tp = some v := by
          intro tp v hv
          have hne : tp ≠ tp0 := by
            intro hc
            rw [hc] at hv
            rw [hv] at hnofetch
            exact hnofetch rfl
          refine F1 tp v ?_
          rw [OffsetMap.getk_setk_ne hne]
          exact hv
        refine ⟨hfmono, fun tp v hv => Cm tp v (commitDefault_mono hv), ?_⟩
        intro tp htp
        by_cases htp0 : tp = tp0
        · subst htp0
          have hc1 : commit1.getk tp = some (some c) := Cm tp (some c) hcd
          refine ⟨⟨some c, hc1⟩, ?_⟩
          intro _
          constructor
          · intro c2 hc2
            rw [hc1] at hc2
            injection hc2 with hc3
            injection hc3 with hc4
            subst hc4
            exact F1 tp (some c) OffsetMap.getk_setk_same
          · intro hcnone
            rw [hc1] at hcnone
            simp at hcnone
        · have htp' : tp ∈ rest := by
            rcases List.mem_cons.mp htp with h' | h'
            · exact absurd h' htp0
            · exact h'
          obtain ⟨hdef, himp⟩ := P tp htp'
          refine ⟨hdef, ?_⟩
          intro hfn
          refine himp ?_
          rw [OffsetMap.getk_setk_ne htp0]
          exact hfn
      · rename_i hnotint
        split at h
        · cases h
        · rename_i v hres
          obtain ⟨F1, Cm, P⟩ := ih (fetch.setk tp0 (some v)) (commitDefault commit tp0)
            fetch1 commit1 h
          have hfmono : ∀ tp u, fetch.getk tp = some u → fetch1.getk tp = some u := by
            intro tp u hv
            have hne : tp ≠ tp0 := by
              intro hc
              rw [hc] at hv
              rw [hv] at hnofetch
              exact hnofetch rfl
            refine F1 tp u ?_
            rw [OffsetMap.getk_setk_ne hne]
            exact hv
          refine ⟨hfmono, fun tp u hv => Cm tp u (commitDefault_mono hv), ?_⟩
          intro tp htp
          by_cases htp0 : tp = tp0
          · subst htp0
            obtain ⟨x, hx⟩ := commitDefault_getk_self commit tp
            have hxnone : x = none := by
              cases x with
              | none => rfl
              | some c => exact absurd hx (hnotint c)
            subst hxnone
            have hc1 : commit1.getk tp = some none := Cm tp none hx
            refine ⟨⟨none, hc1⟩, ?_⟩
            intro _
            constructor
            · intro c2 hc2
              rw [hc1] at hc2
              simp at hc2
            · intro _
              exact ⟨v, hres, F1 tp (some v) OffsetMap.getk_setk_same⟩
          · have htp' : tp ∈ rest := by
              rcases List.mem_cons.mp htp with h' | h'
              · exact absurd h' htp0
              · exact h'
            obtain ⟨hdef, himp⟩ := P tp htp'
            refine ⟨hdef, ?_⟩
            intro hfn
            refine himp ?_
            rw [OffsetMap.getk_setk_ne htp0]
            exact hfn

/-- C1: after set_topic_partitions succeeds, for every assigned partition the
fetch cursor is the explicitly supplied starting offset when the argument
processing stored one (`pre` is the state after argument dispatch, before
stored-offset lookup); otherwise the stored group commit offset when one
exists (commit cursor an int); otherwise the value the Offset Reset Policy
resolves; and highwater and task_done are None for every assigned
partition. -/
theorem resolution_seeds_cursors
    (cfg : Config) (md : Metadata) (stored : TP → OffsetFetchResp)
    (lookup : OffsetLookup) (args : List TopicSpec)
    (st : ResolvedState) (pre : List TP × OffsetMap)
    (hpre : processSpecs md args ([], []) = .ok pre)
    (hset : set_topic_partitions cfg md stored lookup args = .ok st) :
    ∀ tp ∈ st.topics,
      (∀ v, pre.2.getk tp = some v → st.offsets.fetch.getk tp = some v) ∧
      (pre.2.getk tp = none → ∀ c, st.offsets.commit.getk tp = some (some c) →
        st.offsets.fetch.getk tp = some (some c)) ∧
      (pre.2.getk tp = none → st.offsets.commit.getk tp = some none →
        ∃ w, reset_partition_offset cfg lookup none tp = .ok w ∧
          st.offsets.fetch.getk tp = some (some w)) ∧
      st.offsets.highwater.getk tp = some none ∧
      st.offsets.task_done.getk tp = some none := by
  obtain ⟨tps, fetch0⟩ := pre
  unfold set_topic_partitions at hset
  rw [hpre] at hset
  split at hset
  · cases hset
  · rename_i tps2 fetch02 heq
    injection heq with heq2
    injection heq2 with heqt heqf
    subst heqt
    subst heqf
    split at hset
    · cases hset
    · rename_i commit0 hc0
      split at hset
      · cases hset
      · rename_i fetch1 commit1 hfill
        injection hset with hst
        subst hst
        intro tp htp
        obtain ⟨F1, Cm, P⟩ :=
          fillOffsets_spec cfg lookup tps fetch0 commit0 fetch1 commit1 hfill
        obtain ⟨⟨x, hx⟩, himp⟩ := P tp htp
        refine ⟨fun v hv => F1 tp v hv, ?_, ?_,
          resetToNone_getk_mem tps [] tp htp, resetToNone_getk_mem tps [] tp htp⟩
        · intro hfn c hcc
          exact (himp hfn).1 c hcc
        · intro hfn hcc
          exact (himp hfn).2 hcc

def mdW : Metadata := ⟨[("t", [0, 1, 2])]⟩

def storedW : TP → OffsetFetchResp :=
  fun tp => if tp = ("t", 1) then ⟨.noError, 42⟩ else ⟨.noError, -1⟩

def argsW : List TopicSpec := [.tup3 "t" 0 5, .tup2 "t" 1, .tup2 "t" 2]

def stW : ResolvedState :=
  ⟨[("t", 0), ("t", 1), ("t", 2)],
   ⟨[(("t", 0), some 5), (("t", 1), some 42), (("t", 2), some 77)],
    [(("t", 0), none), (("t", 1), none), (("t", 2), none)],
    [(("t", 0), none), (("t", 1), some 42), (("t", 2), none)],
    [(("t", 0), none), (("t", 1), none), (("t", 2), none)]⟩⟩

theorem resolution_seeds_cursors_witness :
    (∃ w, reset_partition_offset cfgG lookup8 none ("t", 2) = .ok w ∧
      stW.offsets.fetch.getk ("t", 2) = some (some w)) ∧
    stW.offsets.fetch.getk ("t", 0) = some (some 5) ∧
    stW.offsets.fetch.getk ("t", 1) = some (some 42) ∧
    stW.offsets.highwater.getk ("t", 2) = some none ∧
    stW.offsets.task_done.getk ("t", 2) = some none := by
  have h := resolution_seeds_cursors cfgG mdW storedW lookup8 argsW stW
    ([("t", 0), ("t", 1), ("t", 2)], [(("t", 0), some 5)]) rfl rfl
  have h0 := h ("t", 0) (by decide)
  have h1 := h ("t", 1) (by decide)
  have h2 := h ("t", 2) (by decide)
  exact ⟨h2.2.2.1 rfl rfl, h0.1 (some 5) rfl, h1.2.1 rfl 42 rfl, h2.2.2.2.1, h2.2.2.2.2⟩

/-- The environment of one next() call: per-fetch-round transport results,
per-commit-call transport results, and successive time.time() readings
(milliseconds, read in program order: reading 0 by
_set_consumer_timeout_start, later readings by the auto-commit check and
_check_consumer_timeout). -/
structure NextEnv where
  fetchTransports : Nat → Except Unit (List FetchResp)
  commitResps : Nat → List OffsetCommitResponse
  clock : Nat → Int

/-- What one next() call does: return a record, raise ConsumerTimeout, let
another exception propagate, or (model artifact) run out of fuel while still
looping. -/
inductive NextOutcome where
  | record (m : KafkaMessage)
  | timeout
  | raised (e : KError)
  | fuelOut
deriving DecidableEq

/-- _check_consumer_timeout (new.py lines 572-574): when a deadline is armed
read the clock and raise ConsumerTimeout when strictly past it; otherwise fall
through to the continuation (which receives the next unused clock index). -/
def checkTimeoutThen (env : NextEnv) (deadline : Option Int) (tick round1 : Nat)
    (k2 : Nat → NextOutcome × Nat) : NextOutcome × Nat :=
  match deadline with
  | none => k2 tick
  | some dl => if env.clock tick > dl then (.timeout, round1) else k2 (tick + 1)

/-- The pull from the active batch (`self._msg_iter.next()` and the
StopIteration handler of new.py lines 178-185): a remaining record is
returned; an exhausted batch whose generator raised re-raises at this pull;
an exhausted clean batch runs the timeout check and continues the loop. -/
def pullOne (env : NextEnv) (deadline : Option Int)
    (it : List KafkaMessage × Option KError) (round1 tick2 : Nat)
    (k2 : Nat → NextOutcome × Nat) : NextOutcome × Nat :=
  match it with
  | (m :: _, _) => (.record m, round1)
  | ([], some e) => (.raised e, round1)
  | ([], none) => checkTimeoutThen env deadline tick2 round1 k2

/-- The tail of one loop iteration after the auto-commit check: a commit
exception propagates out of next(), otherwise pull one element from the
active batch. -/
def afterCommit (env : NextEnv) (deadline : Option Int)
    (it : List KafkaMessage × Option KError) (round1 : Nat)
    (cres : Except KError (OffsetsStruct × Option Int × Nat × Nat))
    (k : OffsetsStruct → Option Int → Nat → Nat → Nat → NextOutcome × Nat) :
    NextOutcome × Nat :=
  match cres with
  | .error e => (.raised e, round1)
  | .ok (off2, nextCommit2, commitN2, tick2) =>
    pullOne env deadline it round1 tick2
      (fun t => k off2 nextCommit2 round1 commitN2 t)

/-- One iteration of the while-True loop of next() (new.py lines 166-185),
in continuation style (`k` is the rest of the loop).  The lazy fetch
generator is run eagerly when a new batch starts; its records are then
dispensed one per pull.  Order per iteration as in the source: fetch a new
batch if needed, check _should_auto_commit (short-circuit: the clock is only
read when auto-commit is enabled and a deadline exists) and run commit()
when it fires (its exceptions propagating), then pull one element. -/
def nextStep (cfg : Config) (lookup : OffsetLookup) (env : NextEnv) (deadline : Option Int)
    (off : OffsetsStruct) (msgIter : Option (List KafkaMessage × Option KError))
    (nextCommit : Option Int) (round commitN tick : Nat)
    (k : OffsetsStruct → Option Int → Nat → Nat → Nat → NextOutcome × Nat) :
    NextOutcome × Nat :=
  let step : OffsetsStruct × (List KafkaMessage × Option KError) × Nat :=
    match msgIter with
    | some it => (off, it, round)
    | none =>
      let r := fetch_messages cfg lookup off (env.fetchTransports round)
      (r.offsets,
       (r.records, match r.outcome with | .finished => none | .raised e => some e),
       round + 1)
  let off1 := step.1
  let it := step.2.1
  let round1 := step.2.2
  let ac : Bool × Nat :=
    if cfg.auto_commit_enable then
      match nextCommit with
      | none => (false, tick)
      | some d => (decide (env.clock tick ≥ d), tick + 1)
    else (false, tick)
  let cres : Except KError (OffsetsStruct × Option Int × Nat × Nat) :=
    if ac.1 then
      let co := KafkaConsumer.commit cfg (env.clock ac.2) nextCommit off1
        (env.commitResps commitN)
      match co.result with
      | .error e => .error e
      | .ok _ => .ok (co.offsets, co.nextCommit, commitN + 1, ac.2 + 1)
    else .ok (off1, nextCommit, commitN, ac.2)
  afterCommit env deadline it round1 cres k

/-- The fuelled while-True loop of next(): iterate nextStep, clearing the
batch between iterations; returns the outcome and the number of fetch rounds
issued. -/
def nextLoop (cfg : Config) (lookup : OffsetLookup) (env : NextEnv) (deadline : Option Int) :
    Nat → OffsetsStruct → Option (List KafkaMessage × Option KError) → Option Int →
    Nat → Nat → Nat → NextOutcome × Nat
  | 0, _, _, _, round, _, _ => (.fuelOut, round)
  | fuel + 1, off, msgIter, nextCommit, round, commitN, tick =>
    nextStep cfg lookup env deadline off msgIter nextCommit round commitN tick
      (fun off2 nextCommit2 round1 commitN2 tick2 =>
        nextLoop cfg lookup env deadline fuel off2 none nextCommit2 round1 commitN2 tick2)

/-- next() (new.py lines 166-185): _set_consumer_timeout_start reads the
clock (reading 0) and arms the deadline unless consumer_timeout_ms is
negative (`self._consumer_timeout = False`), then the loop runs. -/
def KafkaConsumer.next (cfg : Config) (lookup : OffsetLookup) (env : NextEnv)
    (off : OffsetsStruct) (msgIter : Option (List KafkaMessage × Option KError))
    (nextCommit : Option Int) (fuel : Nat) : NextOutcome × Nat :=
  let deadline : Option Int :=
    if cfg.consumer_timeout_ms ≥ 0 then some (env.clock 0 + cfg.consumer_timeout_ms) else none
  nextLoop cfg lookup env deadline fuel off msgIter nextCommit 0 0 1

theorem pullOne_no_deadline_no_timeout (env : NextEnv)
    (it : List KafkaMessage × Option KError) (round1 tick2 : Nat)
    (k2 : Nat → NextOutcome × Nat) (hk2 : ∀ t, (k2 t).1 ≠ .timeout) :
    (pullOne env none it round1 tick2 k2).1 ≠ .timeout := by
  unfold pullOne
  split
  · simp
  · simp
  · exact hk2 _

theorem afterCommit_no_deadline_no_timeout (env : NextEnv)
    (it : List KafkaMessage × Option KError) (round1 : Nat)
    (cres : Except KError (OffsetsStruct × Option Int × Nat × Nat))
    (k : OffsetsStruct → Option Int → Nat → Nat → Nat → NextOutcome × Nat)
    (hk : ∀ o nc r c t, (k o nc r c t).1 ≠ .timeout) :
    (afterCommit env none it round1 cres k).1 ≠ .timeout := by
  unfold afterCommit
  split
  · simp
  · exact pullOne_no_deadline_no_timeout env _ _ _ _ (fun t => hk _ _ _ _ _)

theorem nextStep_no_deadline_no_timeout (cfg : Config) (lookup : OffsetLookup) (env : NextEnv)
    (off : OffsetsStruct) (msgIter : Option (List KafkaMessage × Option KError))
    (nextCommit : Option Int) (round commitN tick : Nat)
    (k : OffsetsStruct → Option Int → Nat → Nat → Nat → NextOutcome × Nat)
    (hk : ∀ o nc r c t, (k o nc r c t).1 ≠ .timeout) :
    (nextStep cfg lookup env none off msgIter nextCommit round commitN tick k).1 ≠
      .timeout := by
  unfold nextStep
  exact afterCommit_no_deadline_no_timeout env _ _ _ _ hk

theorem nextLoop_no_deadline_no_timeout (cfg : Config) (lookup : OffsetLookup) (env : NextEnv) :
    ∀ (fuel : Nat) (off : OffsetsStruct)
      (msgIter : Option (List KafkaMessage × Option KError)) (nextCommit : Option Int)
      (round commitN tick : Nat),
    (nextLoop cfg lookup env none fuel off msgIter nextCommit round commitN tick).1 ≠
      .timeout := by
  intro fuel
  induction fuel with
  | zero =>
    intro off msgIter nextCommit round commitN tick
    simp [nextLoop]
  | succ n ih =>
    intro off msgIter nextCommit round commitN tick
    show (nextStep cfg lookup env none off msgIter nextCommit round commitN tick _).1 ≠ _
    exact nextStep_no_deadline_no_timeout cfg lookup env off msgIter nextCommit round
      commitN tick _ (fun o nc r c t => ih o none nc r c t)

/-- C7: with consumer_timeout_ms = 0, no pending batch, a first fetch round
yielding no records, and the clock strictly advancing between the deadline
arm and the first boundary check (time passes during the round trip), the
very next call to next() raises the consumer-timeout signal after exactly
one fetch round — so never more than one; and a negative consumer_timeout_ms
disables the timeout entirely: no amount of looping makes next() return the
timeout signal, whatever the transports produce.  (Auto-commit is off in the
first part; configure() requires a group to enable it and it does not change
the fetch-round count.) -/
theorem next_timeout_zero_and_negative
    (cfg : Config) (lookup : OffsetLookup) (env : NextEnv)
    (off : OffsetsStruct) (nextCommit : Option Int) :
    (cfg.consumer_timeout_ms = 0 → cfg.auto_commit_enable = false →
      env.fetchTransports 0 = .ok [] → env.clock 0 < env.clock 1 →
      ∀ fuel, KafkaConsumer.next cfg lookup env off none nextCommit (fuel + 1) =
        (.timeout, 1)) ∧
    (cfg.consumer_timeout_ms < 0 →
      ∀ fuel msgIter,
        (KafkaConsumer.next cfg lookup env off msgIter nextCommit fuel).1 ≠ .timeout) := by
  constructor
  · intro h0 hauto hempty hclock fuel
    have hcl : env.clock 1 > env.clock 0 + 0 := by omega
    unfold KafkaConsumer.next
    rw [h0]
    unfold nextLoop
    unfold nextStep
    rw [hempty, hauto]
    have hf : fetch_messages cfg lookup off (Except.ok ([] : List FetchResp)) =
        ⟨off, [], 0, .finished⟩ := rfl
    rw [hf]
    show checkTimeoutThen env (some (env.clock 0 + 0)) 1 1 _ = (.timeout, 1)
    simp only [checkTimeoutThen]
    rw [if_pos hcl]
  · intro hneg fuel msgIter
    unfold KafkaConsumer.next
    have hdl : ¬(cfg.consumer_timeout_ms ≥ 0) := by omega
    rw [if_neg hdl]
    exact nextLoop_no_deadline_no_timeout cfg lookup env fuel off msgIter nextCommit 0 0 1

def cfgT0 : Config :=
  ⟨none, "largest", 1048576, 1, 100, 200, fun v => some v, false, 60000, 0⟩

def envW : NextEnv := ⟨fun _ => .ok [], fun _ => [], fun i => (i : Int)⟩

theorem next_timeout_zero_and_negative_witness :
    KafkaConsumer.next cfgT0 lookup8 envW ⟨[], [], [], []⟩ none none 3 = (.timeout, 1) ∧
    (KafkaConsumer.next cfgG lookup8 envW ⟨[], [], [], []⟩ none none 5).1 ≠ .timeout := by
  have h := next_timeout_zero_and_negative cfgT0 lookup8 envW ⟨[], [], [], []⟩ none
  have h2 := next_timeout_zero_and_negative cfgG lookup8 envW ⟨[], [], [], []⟩ none
  exact ⟨h.1 rfl rfl rfl (by decide) 2, h2.2 (by decide) 5 none⟩
